import Mathlib

/-!
Verification of the Research-Paper-Summarizer core against its specification.

Python strings are modelled as `List Char`, wall-clock time as `ℚ`, and the
remote completion service as an abstract function `List Char → Except ApiError (List Char)`
(one call per prompt).  Every definition below is a direct translation of the
corresponding function in the repository source, with the source file and line
range noted in its doc comment.
-/

set_option maxRecDepth 20000

/-- Lower-case a Python string (`str.lower`, restricted to the characters that
actually occur in the repository's pattern lists, which are ASCII). -/
def lowerL (s : List Char) : List Char := s.map Char.toLower

/-- Python `str.strip()`: drop leading and trailing whitespace. -/
def stripL (s : List Char) : List Char :=
  ((s.dropWhile Char.isWhitespace).reverse.dropWhile Char.isWhitespace).reverse

/-- Python `a.startswith(b)`. -/
def startsWithL (s pre : List Char) : Bool := pre.isPrefixOf s

/-- Python `sep.join(xs)` for a list of strings. -/
def joinSep (sep : List Char) : List (List Char) → List Char
  | [] => []
  | [x] => x
  | x :: y :: rest => x ++ sep ++ joinSep sep (y :: rest)

/-- Helper for `splitOn2`: prepend a character to the first group. -/
def consHead (c : Char) : List (List Char) → List (List Char)
  | [] => [[c]]
  | g :: gs => (c :: g) :: gs

/-- Python `s.split(sep)` for a two-character separator `[a, b]`
(the repository only ever splits on the two-character separators
`"\n\n"` and `". "`): non-overlapping occurrences, scanned left to right. -/
def splitOn2 (a b : Char) : List Char → List (List Char)
  | [] => [[]]
  | [c] => [[c]]
  | c :: d :: rest =>
    if c = a ∧ d = b then [] :: splitOn2 a b rest
    else consHead c (splitOn2 a b (d :: rest))

/-- State of the accumulation loop in `chunk_text`
(src/models/utils.py lines 60-62): emitted chunks, the units (paragraphs or
sentences) of the chunk under construction, and the running `current_length`. -/
structure ChunkState where
  chunks : List (List Char)
  current : List (List Char)
  clen : Nat
deriving DecidableEq

/-- Body of the sentence loop of `chunk_text` (src/models/utils.py lines 72-80):
accumulate the sentence if it fits, otherwise emit the pending chunk joined
with `". "` plus a trailing `'.'` and restart from the sentence. -/
def procSentence (max_length : Nat) (st : ChunkState) (sentence : List Char) : ChunkState :=
  if st.clen + sentence.length + 2 ≤ max_length then
    { st with current := st.current ++ [sentence], clen := st.clen + sentence.length + 2 }
  else
    { chunks := st.chunks ++
        (if st.current ≠ [] then [joinSep ['.', ' '] st.current ++ ['.']] else []),
      current := [sentence], clen := sentence.length }

/-- Body of the paragraph loop of `chunk_text` (src/models/utils.py lines 64-89):
strip the paragraph, skip it if empty, fall back to sentence splitting when it
exceeds `max_length`, otherwise accumulate it, emitting the pending chunk
joined with `"\n\n"` on overflow. -/
def procParagraph (max_length : Nat) (st : ChunkState) (paragraph : List Char) : ChunkState :=
  let p := stripL paragraph
  if p = [] then st
  else if p.length > max_length then
    (splitOn2 '.' ' ' p).foldl (procSentence max_length) st
  else if st.clen + p.length + 2 ≤ max_length then
    { st with current := st.current ++ [p], clen := st.clen + p.length + 2 }
  else
    { chunks := st.chunks ++
        (if st.current ≠ [] then [joinSep ['\n', '\n'] st.current] else []),
      current := [p], clen := p.length }

/-- Model of `chunk_text(text, max_length)` from src/models/utils.py lines 47-94:
split on blank-line paragraph boundaries, accumulate, and always emit the
final partial chunk. -/
def chunk_text (text : List Char) (max_length : Nat) : List (List Char) :=
  let st := (splitOn2 '\n' '\n' text).foldl (procParagraph max_length) ⟨[], [], 0⟩
  st.chunks ++ (if st.current ≠ [] then [joinSep ['\n', '\n'] st.current] else [])

example : chunk_text ("aaaaaa. b. c".toList) 8 =
    ["aaaaaa.".toList, "b\n\nc".toList] := by decide

example : chunk_text ("aaaa. bb".toList) 4 = ["aaaa.".toList, "bb".toList] := by decide

example : chunk_text [] 2000 = [] := by decide

example : chunk_text ("hello".toList) 2000 = ["hello".toList] := by decide

example : chunk_text ("ab\n\ncd".toList) 2 = ["ab".toList, "cd".toList] := by decide

/-!
Section: Rate-limited dispatcher: sliding-window admission

Model of `ModelManager._wait_for_rate_limit` (src/models/model_loader.py lines
48-69).  Wall-clock time is a rational number of seconds.  `time.sleep` is
exact and computation takes no time, so the timestamp recorded at the end of
the admission procedure is `current_time` plus the total time slept.
-/

/-- The `while self._request_times and current_time - self._request_times[0] > 60`
pruning loop (src/models/model_loader.py lines 53-54): drop leading timestamps
older than 60 seconds. -/
def pruneOld (now : ℚ) : List ℚ → List ℚ
  | [] => []
  | t :: ts => if now - t > 60 then pruneOld now ts else t :: ts

/-- Constant `ModelManager._rpm_limit` (src/models/model_loader.py line 15). -/
def rpm_limit : Nat := 60

/-- Constant `ModelManager._min_request_interval` (src/models/model_loader.py line 14). -/
def min_request_interval : ℚ := 1

/-- Model of `ModelManager._wait_for_rate_limit` (src/models/model_loader.py lines
48-69).  Input: the recorded timestamps (oldest first, the deque has
`maxlen=60`) and the current time.  Output: the updated deque and the admission
time, i.e. the value of `time.time()` appended at line 69 after both sleeps.
The second sleep only happens when more than 0.1 seconds are needed (line 66),
and it re-uses the `current_time` read at line 50, not a fresh clock value. -/
def wait_for_rate_limit (request_times : List ℚ) (current_time : ℚ) : List ℚ × ℚ :=
  let times := pruneOld current_time request_times
  let wait1 : ℚ :=
    if times.length ≥ rpm_limit then
      let wait_time := 60 - (current_time - times.headD 0)
      if wait_time > 0 then wait_time else 0
    else 0
  let wait2 : ℚ :=
    if times ≠ [] ∧ current_time - times.getLastD 0 < min_request_interval then
      let sleep_time := min_request_interval - (current_time - times.getLastD 0)
      if sleep_time > 1/10 then sleep_time else 0
    else 0
  let admitted := current_time + wait1 + wait2
  ((if times.length ≥ 60 then times.drop 1 else times) ++ [admitted], admitted)

/-- A back-to-back caller: call 1 is issued at time 0 against an empty window,
and each later call is issued at the instant the previous call was admitted
(zero delay, zero processing time).  Returns the deque contents and the list of
admission times after `n` calls. -/
def simulate : Nat → List ℚ × List ℚ
  | 0 => ([], [])
  | n + 1 =>
    let s := simulate n
    let now := s.2.getLastD 0
    let r := wait_for_rate_limit s.1 now
    (r.1, s.2 ++ [r.2])

/-- The admission times `0, 1, ..., n-1` as rationals. -/
def rangeQ (n : Nat) : List ℚ := List.map (Nat.cast : Nat → ℚ) (List.range n)

theorem rangeQ_succ (n : Nat) : rangeQ (n + 1) = rangeQ n ++ [(n : ℚ)] := by
  simp [rangeQ, List.range_succ]

theorem rangeQ_length (n : Nat) : (rangeQ n).length = n := by
  rw [rangeQ, List.length_map, List.length_range]

theorem rangeQ_getLastD (n : Nat) : (rangeQ (n + 1)).getLastD 0 = (n : ℚ) := by
  simp [rangeQ_succ]

theorem rangeQ_head (n : Nat) : (rangeQ (n + 1)).headD 0 = 0 := by
  simp [rangeQ, List.range_succ_eq_map]

theorem pruneOld_keep (now t : ℚ) (ts : List ℚ) (h : ¬ now - t > 60) :
    pruneOld now (t :: ts) = t :: ts := by simp [pruneOld, h]

theorem pruneOld_id (now : ℚ) (l : List ℚ) (h : ¬ now - l.headD 0 > 60) :
    pruneOld now l = l := by
  cases l with
  | nil => rfl
  | cons t ts => exact pruneOld_keep now t ts (by simpa using h)

theorem pruneOld_rangeQ (m n : Nat) (h : m ≤ 60) :
    pruneOld (m : ℚ) (rangeQ (n + 1)) = rangeQ (n + 1) := by
  apply pruneOld_id
  rw [rangeQ_head]
  have hm : (m : ℚ) ≤ 60 := by exact_mod_cast h
  linarith

theorem rangeQ_ne_nil (n : Nat) : rangeQ (n + 1) ≠ [] := by
  intro hc
  have := rangeQ_length (n + 1)
  rw [hc] at this
  simp at this

theorem simulate_one : simulate 1 = ([0], [0]) := by
  norm_num [simulate, wait_for_rate_limit, pruneOld, rpm_limit, min_request_interval]

theorem rangeQ_one : rangeQ 1 = [0] := by
  norm_num [rangeQ, List.range_succ]

/-- One admission step in the back-to-back run while the window is not yet
full: the `m+1` recorded timestamps are `0..m`, the call is issued at time `m`,
only the 1-second minimum-interval sleep fires, and the call is admitted at
time `m+1`. -/
theorem wait_step (m : Nat) (h : m + 1 ≤ 59) :
    wait_for_rate_limit (rangeQ (m + 1)) (m : ℚ) = (rangeQ (m + 2), ((m + 1 : Nat) : ℚ)) := by
  have hp := pruneOld_rangeQ m m (by omega)
  have hlen : (rangeQ (m + 1)).length = m + 1 := rangeQ_length (m + 1)
  have hlast := rangeQ_getLastD m
  have hne : rangeQ (m + 1) ≠ [] := rangeQ_ne_nil m
  have c1 : ¬ (m + 1 ≥ rpm_limit) := by rw [rpm_limit]; omega
  have c1' : ¬ (m + 1 ≥ 60) := by omega
  have c2 : rangeQ (m + 1) ≠ [] ∧ (m : ℚ) - (m : ℚ) < min_request_interval := by
    refine ⟨hne, ?_⟩
    rw [min_request_interval]
    norm_num
  have c3 : min_request_interval - ((m : ℚ) - (m : ℚ)) > 1/10 := by
    rw [min_request_interval]
    norm_num
  simp only [wait_for_rate_limit, hp, hlen, hlast, if_neg c1, if_neg c1', if_pos c2, if_pos c3]
  have hadm : (m : ℚ) + 0 + (min_request_interval - ((m : ℚ) - (m : ℚ))) = ((m + 1 : Nat) : ℚ) := by
    rw [min_request_interval]
    push_cast
    ring
  rw [hadm, rangeQ_succ (m + 1)]

/-- In the back-to-back run the first 60 calls are admitted at times
`0, 1, ..., 59` and the deque holds exactly those timestamps. -/
theorem simulate_first_calls : ∀ n, n ≤ 60 → simulate n = (rangeQ n, rangeQ n) := by
  intro n
  induction n with
  | zero => intro _; rfl
  | succ m ih =>
    intro h
    have hsim := ih (by omega)
    cases m with
    | zero =>
      rw [show (0 + 1 : Nat) = 1 from rfl, simulate_one, rangeQ_one]
    | succ k =>
      have hw := wait_step k (by omega)
      show (let s := simulate (k + 1);
            let now := s.2.getLastD 0;
            let r := wait_for_rate_limit s.1 now;
            (r.1, s.2 ++ [r.2])) = _
      rw [hsim]
      simp only [rangeQ_getLastD, hw]
      rw [← rangeQ_succ (k + 1)]

/-- The admission step of the 61st back-to-back call: the deque already holds
the 60 timestamps `0..59`, the call is issued at time 59, the window sleep
`60 - (59 - 0) = 1` fires and then the minimum-interval sleep fires again, so
the call is admitted at time 61. -/
theorem wait_61 : wait_for_rate_limit (rangeQ 60) ((59 : Nat) : ℚ) =
    ((rangeQ 60).drop 1 ++ [61], 61) := by
  have hp : pruneOld ((59 : Nat) : ℚ) (rangeQ 60) = rangeQ 60 := pruneOld_rangeQ 59 59 (by omega)
  have hlen : (rangeQ 60).length = 60 := rangeQ_length 60
  have hlast : (rangeQ 60).getLastD 0 = ((59 : Nat) : ℚ) := rangeQ_getLastD 59
  have hhead : (rangeQ 60).headD 0 = 0 := rangeQ_head 59
  have hne : rangeQ 60 ≠ [] := rangeQ_ne_nil 59
  have c1 : (60 : Nat) ≥ rpm_limit := by rw [rpm_limit]
  have c1' : (60 : Nat) ≥ 60 := le_refl 60
  have c2 : (60 : ℚ) - (((59 : Nat) : ℚ) - 0) > 0 := by push_cast; norm_num
  have c3 : rangeQ 60 ≠ [] ∧ ((59 : Nat) : ℚ) - ((59 : Nat) : ℚ) < min_request_interval := by
    refine ⟨hne, ?_⟩
    rw [min_request_interval]
    norm_num
  have c4 : min_request_interval - (((59 : Nat) : ℚ) - ((59 : Nat) : ℚ)) > 1/10 := by
    rw [min_request_interval]
    norm_num
  simp only [wait_for_rate_limit, hp, hlen, hlast, hhead, if_pos c1, if_pos c1', if_pos c2,
    if_pos c3, if_pos c4]
  have hadm : ((59 : Nat) : ℚ) + (60 - (((59 : Nat) : ℚ) - 0)) +
      (min_request_interval - (((59 : Nat) : ℚ) - ((59 : Nat) : ℚ))) = 61 := by
    rw [min_request_interval]
    push_cast
    ring
  rw [hadm]

theorem simulate_61 : (simulate 61).2 = rangeQ 60 ++ [61] := by
  have h60 := simulate_first_calls 60 (le_refl 60)
  have hlast : (rangeQ 60).getLastD 0 = ((59 : Nat) : ℚ) := rangeQ_getLastD 59
  show (let s := simulate 60;
        let now := s.2.getLastD 0;
        let r := wait_for_rate_limit s.1 now;
        (r.1, s.2 ++ [r.2])).2 = _
  rw [h60]
  simp only [hlast, wait_61]

theorem simulate_snd_succ (n : Nat) :
    (simulate (n + 1)).2 = (simulate n).2 ++ [(wait_for_rate_limit (simulate n).1 ((simulate n).2.getLastD 0)).2] := rfl

theorem simulate_snd_length : ∀ n, ((simulate n).2).length = n
  | 0 => rfl
  | n + 1 => by
    rw [simulate_snd_succ, List.length_append, simulate_snd_length n]
    rfl

/-- Admission times already recorded are not changed by later calls. -/
theorem simulate_getD_stable : ∀ (m n k : Nat), n ≤ m → k < n →
    ((simulate m).2).getD k 0 = ((simulate n).2).getD k 0 := by
  intro m
  induction m with
  | zero =>
    intro n k hn hk
    exact absurd hk (by omega)
  | succ m ih =>
    intro n k hn hk
    by_cases hnm : n = m + 1
    · rw [hnm]
    · have hle : n ≤ m := by omega
      rw [simulate_snd_succ, List.getD_append _ _ _ _ (by rw [simulate_snd_length]; omega)]
      exact ih n k hle hk

theorem getD_zero_headD {α : Type} (l : List α) (d : α) : l.getD 0 d = l.headD d := by
  cases l <;> rfl

theorem rangeQ_getD_zero : (rangeQ 60).getD 0 0 = 0 := by
  rw [getD_zero_headD, rangeQ_head 59]

/-- C1: for every sequence of at least 61 back-to-back dispatch calls against
one rate limiter with window quota 60, the 61st call's admission time is at
least 60 seconds after the 1st call's admission time (here: admitted at time
61 versus time 0). -/
theorem rate_limit_61st_call (n : Nat) (h : 61 ≤ n) :
    60 ≤ ((simulate n).2).getD 60 0 - ((simulate n).2).getD 0 0 := by
  have h60 : ((simulate n).2).getD 60 0 = ((simulate 61).2).getD 60 0 :=
    simulate_getD_stable n 61 60 h (by omega)
  have h0 : ((simulate n).2).getD 0 0 = ((simulate 61).2).getD 0 0 :=
    simulate_getD_stable n 61 0 h (by omega)
  rw [h60, h0, simulate_61]
  rw [List.getD_append_right _ _ _ _ (by rw [rangeQ_length])]
  rw [List.getD_append _ _ _ _ (by rw [rangeQ_length]; omega)]
  rw [rangeQ_length, rangeQ_getD_zero]
  norm_num

/-- Witness for C1 at exactly 61 calls. -/
theorem rate_limit_61st_call_witness :
    61 ≤ 61 ∧ 60 ≤ ((simulate 61).2).getD 60 0 - ((simulate 61).2).getD 0 0 :=
  ⟨le_refl 61, rate_limit_61st_call 61 (le_refl 61)⟩

theorem getLastD_irrel {α : Type} (d d' : α) : ∀ (l : List α), l ≠ [] →
    l.getLastD d = l.getLastD d'
  | [], h => absurd rfl h
  | _ :: _, _ => by rw [List.getLastD_cons, List.getLastD_cons]

theorem getLastD_mem {α : Type} (d : α) : ∀ (l : List α), l ≠ [] → l.getLastD d ∈ l
  | [], h => absurd rfl h
  | [a], _ => by simp
  | a :: b :: l, _ => by
    rw [List.getLastD_cons]
    exact List.mem_cons_of_mem a (getLastD_mem a (b :: l) (by simp))

theorem pruneOld_ne_nil_tail (now : ℚ) : ∀ ts : List ℚ, pruneOld now ts ≠ [] → ts ≠ []
  | [], h => absurd rfl h
  | _ :: _, _ => by simp

theorem pruneOld_getLastD (now : ℚ) : ∀ ts : List ℚ, pruneOld now ts ≠ [] →
    (pruneOld now ts).getLastD 0 = ts.getLastD 0
  | [], h => absurd rfl h
  | t :: ts, h => by
    by_cases hc : now - t > 60
    · rw [pruneOld] at h ⊢
      rw [if_pos hc] at h ⊢
      have hts : ts ≠ [] := pruneOld_ne_nil_tail now ts h
      rw [pruneOld_getLastD now ts h, List.getLastD_cons, getLastD_irrel t 0 ts hts]
    · rw [pruneOld, if_neg hc]

theorem pruneOld_eq_nil_old (now : ℚ) : ∀ ts : List ℚ, pruneOld now ts = [] →
    ∀ t ∈ ts, now - t > 60
  | [], _, t, ht => absurd ht (List.not_mem_nil t)
  | u :: ts, h, t, ht => by
    by_cases hc : now - u > 60
    · rw [pruneOld, if_pos hc] at h
      rcases List.mem_cons.mp ht with rfl | ht'
      · exact hc
      · exact pruneOld_eq_nil_old now ts h t ht'
    · rw [pruneOld, if_neg hc] at h
      exact absurd h (by simp)

/-- Decomposition of the admission time: `current_time` plus a nonnegative
window sleep plus a minimum-interval sleep that is either the full remainder
of the interval or zero; in the latter case at least 0.9 s have already
elapsed since the last recorded timestamp. -/
theorem wait_admitted_cases (times : List ℚ) (now : ℚ) (hP : pruneOld now times ≠ []) :
    ∃ w1 w2 : ℚ, (wait_for_rate_limit times now).2 = now + w1 + w2 ∧ 0 ≤ w1 ∧
      (w2 = min_request_interval - (now - (pruneOld now times).getLastD 0) ∨
       (w2 = 0 ∧ 9/10 ≤ now - (pruneOld now times).getLastD 0)) := by
  have hmi : min_request_interval = 1 := rfl
  refine ⟨_, _, rfl, ?_, ?_⟩
  · dsimp only
    split_ifs with h1 h2
    · linarith
    · linarith
    · linarith
  · dsimp only
    split_ifs with hC hD
    · left
      rfl
    · right
      refine ⟨rfl, ?_⟩
      rw [hmi] at hD
      push_neg at hD
      linarith
    · right
      refine ⟨rfl, ?_⟩
      rw [not_and_or] at hC
      rcases hC with hC | hC
      · exact absurd hP hC
      · rw [hmi] at hC
        push_neg at hC
        linarith

/-- C2 counterexample: one request is recorded at time 0, the next dispatch
is issued at time 0.95; the needed extra sleep (0.05 s) is below the 0.1 s
threshold at src/models/model_loader.py line 66, so no sleep happens and the
call is admitted at 0.95, i.e. the gap between the two consecutive admissions
is 0.95 < 1.0 second. -/
theorem min_interval_counterexample :
    (wait_for_rate_limit [(0 : ℚ)] (19/20)).2 - [(0 : ℚ)].getLastD 0 < 1 ∧
    (wait_for_rate_limit [(0 : ℚ)] (19/20)).1 = [0, 19/20] := by
  norm_num [wait_for_rate_limit, pruneOld, rpm_limit, min_request_interval]

/-- C2 amended: the gap between two consecutive admissions is at least 0.9
seconds (not 1.0: when the missing part of the interval is at most 0.1 s the
dispatcher does not sleep at all). -/
theorem min_interval_gap (times : List ℚ) (now : ℚ) (h : times ≠ []) :
    9/10 ≤ (wait_for_rate_limit times now).2 - times.getLastD 0 := by
  by_cases hP : pruneOld now times = []
  · have hgt : now - times.getLastD 0 > 60 :=
      pruneOld_eq_nil_old now times hP _ (getLastD_mem 0 times h)
    have hadm : (wait_for_rate_limit times now).2 = now + 0 + 0 := by
      simp only [wait_for_rate_limit, hP]
      norm_num [rpm_limit]
    rw [hadm]
    linarith
  · have hL := pruneOld_getLastD now times hP
    obtain ⟨w1, w2, heq, hw1, hcase⟩ := wait_admitted_cases times now hP
    rw [heq]
    have hmi : min_request_interval = 1 := rfl
    rcases hcase with hw2 | ⟨hw2, hge⟩
    · rw [hmi, hL] at hw2
      linarith
    · rw [hL] at hge
      linarith

/-- Witness for C2 amended: with one request recorded at time 0 and the next
call issued immediately, the full 1-second sleep fires and the gap is 1 ≥ 0.9. -/
theorem min_interval_gap_witness :
    9/10 ≤ (wait_for_rate_limit [(0 : ℚ)] 0).2 - [(0 : ℚ)].getLastD 0 :=
  min_interval_gap [(0 : ℚ)] 0 (by simp)

/-!
Section: Dispatcher failure handling and retry

Model of `ModelManager._make_api_request` (src/models/model_loader.py lines
87-131) and `ModelManager._handle_api_error` (lines 71-85).  Each attempt of
the `while retry_count < max_retries` loop observes one outcome of the
`requests.post` call: an HTTP 200 with a completion text, a non-200 status
with a body, or a `requests.exceptions.RequestException`.  The exceptions
raised by `_handle_api_error` are plain `Exception`s, which the
`except requests.exceptions.RequestException` clause at line 124 does not
catch, so they propagate out of the loop.
-/

/-- Outcome of one `requests.post` attempt. -/
inductive Outcome where
  | success (text : List Char)
  | httpError (status : Nat) (body : List Char)
  | netException (msg : List Char)
deriving DecidableEq

/-- The exceptions the dispatcher can raise, by source line:
`rateLimitExceeded` (line 79), `authError` (line 81), `badRequest` (line 83),
`apiFailed` (line 85), and a propagated `requests` exception (line 128). -/
inductive ApiError where
  | rateLimitExceeded
  | authError
  | badRequest (body : List Char)
  | apiFailed (status : Nat) (body : List Char)
  | requestException (msg : List Char)
deriving DecidableEq

/-- Model of `ModelManager._handle_api_error` (src/models/model_loader.py lines 71-85)
as a map from a non-200 response to the exception it raises.  (The 429 branch
also clears the sliding window and sleeps for the `Retry-After` duration
before raising; only the raised error matters to the retry loop.) -/
def handle_api_error (status : Nat) (body : List Char) : ApiError :=
  if status = 429 then .rateLimitExceeded
  else if status = 401 then .authError
  else if status = 400 then .badRequest body
  else .apiFailed status body

/-- The `while retry_count < max_retries` loop of `_make_api_request`
(src/models/model_loader.py lines 108-131).  `remaining = max_retries -
retry_count` counts the loop iterations still allowed; attempt number
`retryCount` observes `outcomes retryCount`.  Returns the result together
with the list of backoff sleeps (`2 ** retry_count` seconds, line 129)
performed between attempts.  The `remaining = 0` case is unreachable from
`make_api_request` because the loop raises before `retry_count` reaches 3. -/
def make_api_request_go (outcomes : Nat → Outcome) :
    Nat → Nat → Except ApiError (List Char) × List Nat
  | 0, _ => (.error (.requestException []), [])
  | remaining + 1, retryCount =>
    match outcomes retryCount with
    | .success t => (.ok (stripL t), [])
    | .httpError s b => (.error (handle_api_error s b), [])
    | .netException msg =>
      if retryCount + 1 = 3 then (.error (.requestException msg), [])
      else
        let r := make_api_request_go outcomes remaining (retryCount + 1)
        (r.1, 2 ^ (retryCount + 1) :: r.2)

/-- Model of `ModelManager._make_api_request` (src/models/model_loader.py lines
105-131): up to `max_retries = 3` attempts starting at `retry_count = 0`. -/
def make_api_request (outcomes : Nat → Outcome) : Except ApiError (List Char) × List Nat :=
  make_api_request_go outcomes 3 0

/-- C3 counterexample: a dispatch whose first attempt returns HTTP 500 and
whose second attempt would succeed.  The claim says the 500 is a transient
failure that is retried, so the call would return "ok"; the code instead
raises the plain `Exception` from `_handle_api_error` (not caught by the
`except requests.exceptions.RequestException` clause) and propagates it on
the first attempt, with no backoff sleep. -/
theorem retry_http_counterexample :
    make_api_request
      (fun n => if n = 0 then .httpError 500 ("boom".toList) else .success ("ok".toList)) =
    (.error (.apiFailed 500 ("boom".toList)), []) := rfl

/-- C3 amended: only network-level exceptions (`requests.exceptions.
RequestException`) are transient: they are retried up to 3 total attempts with
backoff sleeps of `2^attempt` seconds (2 s then 4 s), a call failing twice
then succeeding returns the stripped completion text, and three failures
propagate the network error; but any non-2xx HTTP status other than
429/401/400 raises a fatal API-failure error on the first attempt without
retry. -/
theorem retry_behaviour (t b msg : List Char) (s : Nat)
    (h429 : s ≠ 429) (h401 : s ≠ 401) (h400 : s ≠ 400) :
    make_api_request (fun n => if n < 2 then .netException msg else .success t) =
      (.ok (stripL t), [2, 4]) ∧
    make_api_request (fun _ => .netException msg) =
      (.error (.requestException msg), [2, 4]) ∧
    make_api_request (fun _ => .httpError s b) =
      (.error (.apiFailed s b), []) := by
  refine ⟨rfl, rfl, ?_⟩
  rw [make_api_request, make_api_request_go]
  simp only [handle_api_error, if_neg h429, if_neg h401, if_neg h400]

/-- Witness for C3 amended at text "ok", status 500, body "b", message "m". -/
theorem retry_behaviour_witness :
    make_api_request
      (fun n => if n < 2 then .netException ("m".toList) else .success ("ok".toList)) =
      (.ok (stripL ("ok".toList)), [2, 4]) ∧
    make_api_request (fun _ => .netException ("m".toList)) =
      (.error (.requestException ("m".toList)), [2, 4]) ∧
    make_api_request (fun _ => .httpError 500 ("b".toList)) =
      (.error (.apiFailed 500 ("b".toList)), []) :=
  retry_behaviour ("ok".toList) ("b".toList) ("m".toList) 500
    (by decide) (by decide) (by decide)

/-!
Section: Text utilities shared by the extractors

`splitlines`, tag stripping, first-occurrence substring split, and the
whitespace split used by `format_model_output`.
-/

/-- Python `str.splitlines()` restricted to the line breaks `\n`, `\r` and
`\r\n`: content before each break is a line (even if empty), a trailing break
does not produce a final empty line. -/
def splitlinesAux : List Char → List Char → List (List Char)
  | [], acc => if acc.isEmpty then [] else [acc.reverse]
  | '\r' :: '\n' :: rest, acc => acc.reverse :: splitlinesAux rest []
  | '\r' :: rest, acc => acc.reverse :: splitlinesAux rest []
  | '\n' :: rest, acc => acc.reverse :: splitlinesAux rest []
  | c :: rest, acc => splitlinesAux rest (c :: acc)

/-- Python `s.splitlines()`. -/
def splitlines (s : List Char) : List (List Char) := splitlinesAux s []

example : splitlines ("a\nb".toList) = ["a".toList, "b".toList] := by decide
example : splitlines ("a\n".toList) = ["a".toList] := by decide
example : splitlines [] = [] := by decide
example : splitlines ("\n".toList) = [[]] := by decide

/-- Model of `re.sub(r'<.*?>', '', s)`: delete every non-greedy match of `<.*?>`.
`.` does not match a newline, so a `<` with no `>` before the next newline
(or the end of the string) stays in the output literally; `pending = some buf`
holds the characters seen since the currently open `<`, in reverse. -/
def stripTagsAux : List Char → Option (List Char) → List Char
  | [], none => []
  | [], some buf => '<' :: buf.reverse
  | c :: rest, none =>
    if c = '<' then stripTagsAux rest (some [])
    else c :: stripTagsAux rest none
  | c :: rest, some buf =>
    if c = '>' then stripTagsAux rest none
    else if c = '\n' then ('<' :: buf.reverse) ++ '\n' :: stripTagsAux rest none
    else stripTagsAux rest (some (c :: buf))

/-- Model of `re.sub(r'<.*?>', '', s)` applied to the whole string. -/
def stripTags (s : List Char) : List Char := stripTagsAux s none

example : stripTags ("a<b>c".toList) = "ac".toList := by decide
example : stripTags ("a<b c".toList) = "a<b c".toList := by decide
example : stripTags ("<a\n<b>c".toList) = ("<a\nc".toList) := by decide
example : stripTags ("<<a>b".toList) = "b".toList := by decide

/-- Python `s.split(sep, 1)` when `sep` occurs in `s`: the text before the
first occurrence of `sep` (the accumulator holds it reversed) and the text
after it; `none` when `sep` does not occur, which also decides `sep in s`. -/
def splitOnceAux (sep : List Char) : List Char → List Char →
    Option (List Char × List Char)
  | [], _ => none
  | c :: rest, acc =>
    if sep.isPrefixOf (c :: rest) then some (acc.reverse, (c :: rest).drop sep.length)
    else splitOnceAux sep rest (c :: acc)

/-- First-occurrence split; `none` when the separator does not occur. -/
def splitOnce (sep s : List Char) : Option (List Char × List Char) :=
  splitOnceAux sep s []

example : splitOnce ("Answer:".toList) (" q Answer: a".toList) =
    some (" q ".toList, " a".toList) := by decide
example : splitOnce ("Answer:".toList) ("nothing".toList) = none := by decide

/-- Python `s.split(sep)` for a non-empty separator, via repeated
first-occurrence splits; the fuel `s.length + 1` is enough because every step
consumes at least one character. -/
def splitSubFuel (sep : List Char) : Nat → List Char → List (List Char)
  | 0, s => [s]
  | fuel + 1, s =>
    match splitOnce sep s with
    | none => [s]
    | some (pre, post) => pre :: splitSubFuel sep fuel post

/-- Python `s.split(sep)` for a non-empty separator. -/
def splitSub (sep s : List Char) : List (List Char) := splitSubFuel sep (s.length + 1) s

example : splitSub ("Question:".toList) ("Question: a Question: b".toList) =
    [[], " a ".toList, " b".toList] := by decide

/-- Python `s.split()` (no argument): split on whitespace runs, with no empty
groups. -/
def wsplitAux : List Char → List Char → List (List Char)
  | [], acc => if acc.isEmpty then [] else [acc.reverse]
  | c :: rest, acc =>
    if c.isWhitespace then
      if acc.isEmpty then wsplitAux rest [] else acc.reverse :: wsplitAux rest []
    else wsplitAux rest (c :: acc)

/-- Python `s.split()` (no argument). -/
def wsplit (s : List Char) : List (List Char) := wsplitAux s []

example : wsplit ("  a  bc ".toList) = ["a".toList, "bc".toList] := by decide

/-- Model of `format_model_output(output, max_length)` from src/models/utils.py lines
124-142: collapse whitespace runs to single spaces, then truncate with an
ellipsis when a (non-zero) maximum length is given and exceeded. -/
def format_model_output (output : List Char) (max_length : Option Nat) : List Char :=
  let out := joinSep [' '] (wsplit output)
  match max_length with
  | some m => if m ≠ 0 ∧ out.length > m then out.take m ++ "...".toList else out
  | none => out

example : format_model_output ("  a \n b  ".toList) none = "a b".toList := by decide
example : format_model_output ("abcdef".toList) (some 3) = "abc...".toList := by decide

/-!
Section: Summarizer

Model of `ResearchSummarizer.summarize` (src/core/summarizer.py lines 12-95).
The model function obtained from `ModelManager.get_model` is abstracted as
`model : List Char → Except ApiError (List Char)`; an `.error` result stands
for the exception the dispatch raises.
-/

/-- The apostrophe character, used inside the prompt texts. -/
def apostrophe : List Char := [Char.ofNat 39]

/-- The boilerplate prefixes of the `re.match(r"(?i)(...)" , l)` filter used
identically in src/core/summarizer.py line 66 and src/core/flashcard_gen.py
line 38: each alternative is a literal, matched case-insensitively at the
start of the stripped line. -/
def boilerplate_patterns : List (List Char) :=
  ["the summary should".toList, "no, start with".toList, "here is a possible".toList,
   "please provide".toList, "i apologize".toList, "this is not".toList,
   "waiting for your text".toList, "now create".toList, "only output".toList,
   "summarize the following".toList, "do not include".toList,
   "output the summary".toList, "output only".toList, "in summary:".toList,
   "rewritten response is:".toList]

/-- Does the boilerplate filter of the summarizer / flashcard generator drop
this (already stripped) line? -/
def isBoilerplate (l : List Char) : Bool :=
  boilerplate_patterns.any (fun p => startsWithL (lowerL l) p)

/-- State of the extraction loop of `summarize`
(src/core/summarizer.py lines 58-61). -/
structure SumState where
  summary : List Char
  highlights : List (List Char)
  in_summary : Bool
  in_highlights : Bool
deriving DecidableEq

/-- The `for line in raw_output.splitlines()` loop of `summarize`
(src/core/summarizer.py lines 62-87), including both `break` statements of
the highlights branch. -/
def sumLoop : List (List Char) → SumState → SumState
  | [], st => st
  | line :: rest, st =>
    let l := stripL line
    if l = [] then sumLoop rest st
    else if isBoilerplate l then sumLoop rest st
    else if startsWithL l ("```".toList) ∨ startsWithL l ("---".toList) then sumLoop rest st
    else if startsWithL (lowerL l) ("summary:".toList) then
      sumLoop rest { st with in_summary := true, in_highlights := false }
    else if startsWithL (lowerL l) ("key highlights:".toList) then
      sumLoop rest { st with in_highlights := true, in_summary := false }
    else if st.in_highlights then
      if startsWithL l ("*".toList) ∨ startsWithL l ("-".toList) ∨
          startsWithL l ("â€¢".toList) then
        let hs := st.highlights ++ [l]
        if hs.length ≥ 4 then { st with highlights := hs }
        else sumLoop rest { st with highlights := hs }
      else st
    else if st.in_summary then
      sumLoop rest { st with summary := st.summary ++ l ++ [' '] }
    else sumLoop rest st

/-- The extraction part of `summarize` (src/core/summarizer.py lines 54-92):
strip XML tags, run the line loop, then format the result; the summary text
is stripped, and the highlights block is appended only when bullets were
collected. -/
def extractSummary (raw_output : List Char) : List Char :=
  let cleaned := stripTags raw_output
  let st := sumLoop (splitlines cleaned) ⟨[], [], false, false⟩
  let summary := stripL st.summary
  if st.highlights ≠ [] then
    "Summary:\n".toList ++ summary ++ "\n\nKey Highlights:\n".toList ++
      joinSep ['\n'] st.highlights
  else summary

/-- The sections of the single-chunk prompt shared with the combining prompt
(src/core/summarizer.py lines 26-28 = lines 47-49). -/
def summaryPromptBody : List Char :=
  "Summary: [Write a single, concise paragraph summarizing the main research question, methodology, findings, and implications. Do not include any section headers, meta-comments, or repeated information.]\n".toList ++
  "Key Highlights: [After the summary, write exactly one section titled ".toList ++ apostrophe ++
  "Key Highlights:".toList ++ apostrophe ++
  " on a new line, followed by 2-4 bullet points. Each bullet should begin with a bolded label (e.g., **Novelty:**, **Findings:**, **Implication:**) and be concise, non-redundant, and directly related to the main contributions or results.]\n".toList ++
  "Do not repeat information between the summary and highlights. Do not continue writing after the highlights section. Do not include any XML, HTML, or markdown other than bold for the highlight labels. Only output the summary and the ".toList ++
  apostrophe ++ "Key Highlights:".toList ++ apostrophe ++ " section, nothing else.\n\n".toList

/-- The single-chunk prompt (src/core/summarizer.py lines 24-30). -/
def singleChunkPrompt (text : List Char) : List Char :=
  "Write ONLY the following two sections for the text below:\n".toList ++
  summaryPromptBody ++ text

/-- The per-chunk prompt of the multi-chunk path
(src/core/summarizer.py lines 37-39); `idx` is 0-based as in the source. -/
def chunkPrompt (idx total : Nat) (chunk : List Char) : List Char :=
  "Summarize the following part of a research paper (part ".toList ++
  (Nat.repr (idx + 1)).toList ++ " of ".toList ++ (Nat.repr total).toList ++
  "):\n\n".toList ++ chunk

/-- The final combining prompt (src/core/summarizer.py lines 45-51). -/
def finalPrompt (combined : List Char) : List Char :=
  "Write ONLY the following two sections for the text below (which is a set of summaries of a research paper):\n".toList ++
  summaryPromptBody ++ combined

/-- The `str(e)` message of each dispatcher exception
(src/models/model_loader.py lines 79, 81, 83, 85) as seen by the orchestrator
handlers; a propagated `requests` exception carries its own message. -/
def errMessage : ApiError → List Char
  | .rateLimitExceeded => "Rate limit exceeded. Please try again in a moment.".toList
  | .authError => "Invalid API key. Please check your TOGETHER_API_KEY.".toList
  | .badRequest body => "Invalid request: ".toList ++ body
  | .apiFailed status body =>
      "API request failed with status ".toList ++ (Nat.repr status).toList ++
      ": ".toList ++ body
  | .requestException msg => msg

/-- The `for idx, chunk in enumerate(chunks)` dispatch loop of the multi-chunk
path (src/core/summarizer.py lines 36-42). -/
def dispatchChunks (model : List Char → Except ApiError (List Char)) (total : Nat) :
    Nat → List (List Char) → Except ApiError (List (List Char))
  | _, [] => .ok []
  | idx, c :: rest =>
    match model (chunkPrompt idx total c) with
    | .error e => .error e
    | .ok s =>
      match dispatchChunks model total (idx + 1) rest with
      | .error e => .error e
      | .ok srest => .ok (s :: srest)

/-- The body of `summarize` inside its `try` block
(src/core/summarizer.py lines 18-92). -/
def summarizeBody (model : List Char → Except ApiError (List Char))
    (text : List Char) : Except ApiError (List Char) :=
  let chunks := chunk_text text 2000
  if chunks.length = 1 then
    match model (singleChunkPrompt text) with
    | .error e => .error e
    | .ok raw_output => .ok (extractSummary raw_output)
  else
    match dispatchChunks model chunks.length 0 chunks with
    | .error e => .error e
    | .ok chunk_summaries =>
      match model (finalPrompt (joinSep ['\n'] chunk_summaries)) with
      | .error e => .error e
      | .ok raw_output => .ok (extractSummary raw_output)

/-- Model of `ResearchSummarizer.summarize` (src/core/summarizer.py lines 12-95): the
`except Exception` handler at lines 93-95 turns every raised exception into
the string `"[DEBUG] Error: " + str(e)`. -/
def summarize (model : List Char → Except ApiError (List Char))
    (text : List Char) : List Char :=
  match summarizeBody model text with
  | .ok s => s
  | .error e => "[DEBUG] Error: ".toList ++ errMessage e

example : extractSummary ("Summary:\nA\nKey Highlights:\n* x\n* y".toList) =
    ("Summary:\nA\n\nKey Highlights:\n* x\n* y".toList) := by decide

example : extractSummary ("Summary:\nonly text".toList) = "only text".toList := by decide

/-- C7: the extractor does not honor only the first `Summary:` section: on an
input with two `Summary:` sections it concatenates the content of both into
the summary, contradicting both the claim and the function's own docstring
("Only keep the first summary ...", src/core/summarizer.py line 14).  The
second conjunct is what the claim predicts instead. -/
theorem summary_sections_merged :
    extractSummary ("Summary:\nAlpha\nSummary:\nBeta".toList) = "Alpha Beta".toList ∧
    extractSummary ("Summary:\nAlpha\nSummary:\nBeta".toList) ≠ "Alpha".toList := by
  constructor <;> decide

/-!
Section: Level adapter: output extraction

Model of the `clean_adapted` closure inside `LevelAdapter.adapt_text`
(src/core/level_adapter.py lines 32-48).
-/

/-- The boilerplate prefixes of the level adapter
(src/core/level_adapter.py line 43): the shared list plus one extra
alternative. -/
def boilerplate_patterns_la : List (List Char) :=
  boilerplate_patterns ++ ["rest of the original text remains the same".toList]

/-- Does the level adapter's boilerplate filter drop this stripped line? -/
def isBoilerplateLA (l : List Char) : Bool :=
  boilerplate_patterns_la.any (fun p => startsWithL (lowerL l) p)

/-- The `for line in lines` filter loop of `clean_adapted`
(src/core/level_adapter.py lines 37-47), collecting the surviving stripped
lines in order, run on the tag-stripped output. -/
def cleanedLines (output : List Char) : List (List Char) :=
  (splitlines (stripTags output)).foldl
    (fun acc line =>
      let l := stripL line
      if l = [] then acc
      else if isBoilerplateLA l then acc
      else if startsWithL l ("```".toList) ∨ startsWithL l ("---".toList) then acc
      else acc ++ [l]) []

/-- Model of `clean_adapted(output)` (src/core/level_adapter.py lines 32-48):
`cleaned[0] if cleaned else output.strip()`, where `output` has already been
tag-stripped by the `re.sub` at line 35. -/
def clean_adapted (output : List Char) : List Char :=
  match cleanedLines output with
  | [] => stripL (stripTags output)
  | l :: _ => l

/-- The per-line keep-or-drop decision of the filter loop, as an
`Option`-valued function (the specification's view of the same filter). -/
def survivingLine (line : List Char) : Option (List Char) :=
  let l := stripL line
  if l = [] then none
  else if isBoilerplateLA l then none
  else if startsWithL l ("```".toList) ∨ startsWithL l ("---".toList) then none
  else some l

/-- The surviving lines of a raw completion, specification-style. -/
def surviving (output : List Char) : List (List Char) :=
  (splitlines (stripTags output)).filterMap survivingLine

theorem cleanedLines_foldl_eq (lines : List (List Char)) : ∀ acc : List (List Char),
    lines.foldl
      (fun acc line =>
        let l := stripL line
        if l = [] then acc
        else if isBoilerplateLA l then acc
        else if startsWithL l ("```".toList) ∨ startsWithL l ("---".toList) then acc
        else acc ++ [l]) acc = acc ++ lines.filterMap survivingLine := by
  induction lines with
  | nil => intro acc; simp
  | cons line rest ih =>
    intro acc
    rw [List.foldl_cons, List.filterMap_cons]
    simp only [survivingLine]
    split_ifs with h1 h2 h3
    · rw [ih acc]
    · rw [ih acc]
    · rw [ih acc]
    · rw [ih (acc ++ [stripL line]), List.append_assoc]
      rfl

theorem cleanedLines_eq_surviving (output : List Char) :
    cleanedLines output = surviving output := by
  rw [cleanedLines, surviving, cleanedLines_foldl_eq]
  rfl

/-- C8 counterexample: on a whitespace-only completion no line survives, and
the result is the empty string — `output.strip()` of the tag-stripped output —
rather than the untrimmed raw output `"  \n"` that the claim promises. -/
theorem adapted_fallback_counterexample :
    cleanedLines ("  \n".toList) = [] ∧
    clean_adapted ("  \n".toList) ≠ ("  \n".toList) := by
  constructor <;> decide

/-- C8 amended: the adapted text is the first line surviving tag stripping
and boilerplate filtering; when no line survives, the result is the
tag-stripped output with surrounding whitespace stripped (not the raw output
verbatim). -/
theorem adapted_first_surviving_line (output : List Char) :
    clean_adapted output = (surviving output).headD (stripL (stripTags output)) := by
  rw [clean_adapted, cleanedLines_eq_surviving]
  cases surviving output <;> rfl

/-!
Section: Flashcard generator

Model of `FlashcardGenerator.generate_flashcards` and
`FlashcardGenerator._clean_text` (src/core/flashcard_gen.py lines 26-140).
-/

/-- Constant `FLASHCARD_SETTINGS["default_num_cards"]` (src/models/config.py line 81). -/
def default_num_cards : Nat := 5

/-- Constant `FLASHCARD_SETTINGS["max_cards_per_request"]` (src/models/config.py line 86). -/
def max_cards_per_request : Nat := 3

/-- Constant `FLASHCARD_SETTINGS["max_question_length"]` (src/models/config.py line 82). -/
def max_question_length : Nat := 150

/-- Constant `FLASHCARD_SETTINGS["max_answer_length"]` (src/models/config.py line 83). -/
def max_answer_length : Nat := 300

/-- Model of `FlashcardGenerator._clean_text` (src/core/flashcard_gen.py lines 26-43).
The two `re.sub` calls and the chained `replace` calls together delete every
`>`, `*` and `<` character; then lines are stripped and filtered with the
shared boilerplate list, and the survivors are joined with single spaces and
stripped. -/
def clean_text (s : List Char) : List Char :=
  let s := s.filter (fun c => !(c == '>') && !(c == '*') && !(c == '<'))
  let cleaned := (splitlines s).foldl
    (fun acc line =>
      let l := stripL line
      if l = [] then acc
      else if isBoilerplate l then acc
      else if startsWithL l ("```".toList) ∨ startsWithL l ("---".toList) then acc
      else acc ++ [l]) []
  stripL (joinSep [' '] cleaned)

/-- One element of the list `generate_flashcards` returns: a parsed flashcard
(a `{"question": ..., "answer": ...}` dict) or a `{"raw_output": ...}` debug
record. -/
inductive FCRecord where
  | card (question answer : List Char)
  | rawOutput (raw : List Char)
deriving DecidableEq

/-- Is this record a parsed flashcard (not a debug record)? -/
def FCRecord.isCard : FCRecord → Bool
  | .card _ _ => true
  | .rawOutput _ => false

/-- Mutable state of `generate_flashcards`
(src/core/flashcard_gen.py lines 51-54). -/
structure FCSt where
  flashcards : List FCRecord
  seen_qas : List (List Char × List Char)
  remaining_cards : Nat
  raw_outputs : List (List Char)
deriving DecidableEq

/-- The `for card_text in card_texts` loop of the chunk path
(src/core/flashcard_gen.py lines 75-96), including the budget decrement and
the `break` once `remaining_cards` reaches 0. -/
def procCards (st : FCSt) : List (List Char) → FCSt
  | [] => st
  | card_text :: rest =>
    match splitOnce ("Answer:".toList) card_text with
    | none => procCards st rest
    | some (q0, a0) =>
      let question := clean_text q0
      let answer := clean_text a0
      if question = [] ∨ answer = [] then procCards st rest
      else
        let qa_pair := (lowerL question, lowerL answer)
        if qa_pair ∈ st.seen_qas then procCards st rest
        else
          let st' : FCSt :=
            { flashcards := st.flashcards ++
                [.card (format_model_output question (some max_question_length))
                       (format_model_output answer (some max_answer_length))],
              seen_qas := st.seen_qas ++ [qa_pair],
              remaining_cards := st.remaining_cards - 1,
              raw_outputs := st.raw_outputs }
          if st'.remaining_cards ≤ 0 then st' else procCards st' rest

/-- The prompt of `_generate_flashcard_prompt`
(src/core/flashcard_gen.py lines 13-24). -/
def fcPrompt (text : List Char) (num_cards : Nat) : List Char :=
  "Create ".toList ++ (Nat.repr num_cards).toList ++
  " flashcards from the following text. Format each flashcard as:\nQuestion: [your question here]\nAnswer: [your answer here]\n\nExample:\nQuestion: What is semantic communication?\nAnswer: Semantic communication is a paradigm that focuses on the meaning of information exchanged in communication systems.\n\nText: ".toList ++
  text ++ "\n".toList

/-- The `for i, chunk in enumerate(chunks)` loop
(src/core/flashcard_gen.py lines 55-99): stop once the budget is exhausted,
request `min(remaining_cards, max_cards_per_request)` cards per chunk, record
the raw output, skip chunks whose output is empty or has no `"Question:"`
marker, and otherwise run the card loop. -/
def fcChunkLoop (model : List Char → Except ApiError (List Char)) :
    List (List Char) → FCSt → Except ApiError FCSt
  | [], st => .ok st
  | chunk :: rest, st =>
    if st.remaining_cards ≤ 0 then .ok st
    else
      match model (fcPrompt chunk (min st.remaining_cards max_cards_per_request)) with
      | .error e => .error e
      | .ok flashcard_text =>
        let st' : FCSt := { st with raw_outputs := st.raw_outputs ++ [flashcard_text] }
        if flashcard_text = [] then fcChunkLoop model rest st'
        else
          let card_texts := (splitSub ("Question:".toList) flashcard_text).drop 1
          if card_texts = [] then fcChunkLoop model rest st'
          else fcChunkLoop model rest (procCards st' card_texts)

/-- The `for card_text in card_texts` loop of the whole-text fallback path
(src/core/flashcard_gen.py lines 114-131): same parsing, cleaning and
deduplication as the chunk path, but no budget check and no decrement. -/
def fcFallbackCards (st : FCSt) : List (List Char) → FCSt
  | [] => st
  | card_text :: rest =>
    match splitOnce ("Answer:".toList) card_text with
    | none => fcFallbackCards st rest
    | some (q0, a0) =>
      let question := clean_text q0
      let answer := clean_text a0
      if question = [] ∨ answer = [] then fcFallbackCards st rest
      else
        let qa_pair := (lowerL question, lowerL answer)
        if qa_pair ∈ st.seen_qas then fcFallbackCards st rest
        else
          fcFallbackCards
            { st with
              flashcards := st.flashcards ++
                [.card (format_model_output question (some max_question_length))
                       (format_model_output answer (some max_answer_length))],
              seen_qas := st.seen_qas ++ [qa_pair] } rest

/-- The body of `generate_flashcards` inside its `try` block
(src/core/flashcard_gen.py lines 46-137).  The chunk size is
`MODEL_CONFIGS["flashcard_gen"]["max_length"] = 2048`.  Note the two early
`return []` statements of the fallback path (lines 107 and 113) and the final
debug-record return (lines 134-136). -/
def generate_flashcardsBody (model : List Char → Except ApiError (List Char))
    (text : List Char) (num_cards_arg : Option Nat) : Except ApiError (List FCRecord) :=
  let num_cards := num_cards_arg.getD default_num_cards
  let chunks := chunk_text text 2048
  match fcChunkLoop model chunks ⟨[], [], num_cards, []⟩ with
  | .error e => .error e
  | .ok st =>
    if st.flashcards = [] ∧ text ≠ [] then
      match model (fcPrompt text num_cards) with
      | .error e => .error e
      | .ok flashcard_text =>
        let st' : FCSt := { st with raw_outputs := st.raw_outputs ++ [flashcard_text] }
        if flashcard_text = [] then .ok []
        else
          let card_texts := (splitSub ("Question:".toList) flashcard_text).drop 1
          if card_texts = [] then .ok []
          else
            let st'' := fcFallbackCards st' card_texts
            if st''.flashcards = [] then .ok (st''.raw_outputs.map FCRecord.rawOutput)
            else .ok st''.flashcards
    else
      if st.flashcards = [] then .ok (st.raw_outputs.map FCRecord.rawOutput)
      else .ok st.flashcards

/-- Model of `FlashcardGenerator.generate_flashcards` (src/core/flashcard_gen.py lines
45-140): the `except Exception` handler at lines 138-140 turns every raised
exception into an empty list. -/
def generate_flashcards (model : List Char → Except ApiError (List Char))
    (text : List Char) (num_cards_arg : Option Nat) : List FCRecord :=
  match generate_flashcardsBody model text num_cards_arg with
  | .ok r => r
  | .error _ => []

example : generate_flashcards
    (fun _ => .ok ("Question: A?\nAnswer: B.\nQuestion: A?\nAnswer: B.".toList))
    ("hi".toList) none =
    [.card ("A?".toList) ("B.".toList)] := by decide

example : generate_flashcards
    (fun _ => .ok ("Question: no answer here".toList)) ("hi".toList) none =
    [.rawOutput ("Question: no answer here".toList),
     .rawOutput ("Question: no answer here".toList)] := by decide

theorem splitSubFuel_none (sep s : List Char) (h : splitOnce sep s = none) :
    ∀ fuel, splitSubFuel sep fuel s = [s]
  | 0 => rfl
  | fuel + 1 => by rw [splitSubFuel, h]

/-- C9 counterexample: with non-empty input text and a model that always
answers with non-empty text containing no `"Question:"` marker, zero cards
survive the chunks and the fallback, yet `generate_flashcards` returns the
empty list (the early `return []` at src/core/flashcard_gen.py line 113), not
debug records. -/
theorem flashcards_empty_counterexample :
    generate_flashcards (fun _ => .ok ("nothing here".toList)) ("hello".toList) none = [] ∧
    ("hello".toList ≠ []) := by
  constructor
  · decide
  · decide

/-- C9 amended: when zero flashcards survive the chunk loop, the fallback's
raw completions are wrapped as debug records only if the fallback completion
contains a `"Question:"` marker (second conjunct); if the fallback completion
is non-empty but contains no `"Question:"` marker, `generate_flashcards`
returns the empty list even for non-empty input (first conjunct, the early
`return []` of src/core/flashcard_gen.py line 113). -/
theorem flashcards_zero_survivors (out : List Char) (hne : out ≠ [])
    (hq : splitOnce ("Question:".toList) out = none) :
    generate_flashcards (fun _ => .ok out) ("hello".toList) none = [] ∧
    generate_flashcards (fun _ => .ok ("Question: Answer:".toList)) ("hi".toList) none =
      [.rawOutput ("Question: Answer:".toList), .rawOutput ("Question: Answer:".toList)] := by
  refine ⟨?_, by decide⟩
  have hsplit : splitSub ("Question:".toList) out = [out] :=
    splitSubFuel_none _ _ hq _
  have hch : chunk_text ("hello".toList) 2048 = ["hello".toList] := by decide
  have hsplit2 : splitSub ['Q', 'u', 'e', 's', 't', 'i', 'o', 'n', ':'] out = [out] := hsplit
  simp [generate_flashcards, generate_flashcardsBody, hch, fcChunkLoop, hsplit2, hne,
    default_num_cards, max_cards_per_request]

/-- Witness for C9 amended at the completion "no cards here". -/
theorem flashcards_zero_survivors_witness :
    generate_flashcards (fun _ => .ok ("no cards here".toList)) ("hello".toList) none = [] ∧
    generate_flashcards (fun _ => .ok ("Question: Answer:".toList)) ("hi".toList) none =
      [.rawOutput ("Question: Answer:".toList), .rawOutput ("Question: Answer:".toList)] :=
  flashcards_zero_survivors ("no cards here".toList) (by decide) (by decide)

/-- A completion holding six well-formed distinct flashcards. -/
def sixCardsCompletion : List Char :=
  ("Question: A1 Answer: B1 Question: A2 Answer: B2 Question: A3 Answer: B3 " ++
   "Question: A4 Answer: B4 Question: A5 Answer: B5 Question: A6 Answer: B6").toList

/-- A model that answers the per-chunk prompts (which ask for
`min(num_cards, 3) = 3` cards, so begin with "Create 3") with unparseable
text, and the whole-text fallback prompt (which asks for `num_cards = 5`
cards) with six cards. -/
def budgetBlindModel : List Char → Except ApiError (List Char) := fun prompt =>
  if (splitOnce ("Create 3".toList) prompt).isSome then .ok ("junk".toList)
  else .ok sixCardsCompletion

/-- C10: the remaining-card budget is only checked and decremented in the
per-chunk loop; the whole-text fallback adds every parsed, non-empty,
non-duplicate card without touching the budget, so a run whose chunks parse
to nothing and whose fallback completion holds six cards returns six
flashcards — strictly more than the requested `num_cards = 5`. -/
theorem fallback_ignores_budget :
    default_num_cards <
      (generate_flashcards budgetBlindModel ("hello".toList) none).length ∧
    (generate_flashcards budgetBlindModel ("hello".toList) none).all
      FCRecord.isCard = true := by
  constructor
  · decide
  · decide

/-- C4 counterexample: a dispatch that raises the auth error does not
propagate out of `summarize`; the `except Exception` handler at
src/core/summarizer.py lines 93-95 converts it into a `"[DEBUG] Error: ..."`
debug string returned to the caller. -/
theorem auth_error_swallowed_counterexample :
    summarize (fun _ => .error .authError) ("hello".toList) =
      ("[DEBUG] Error: Invalid API key. Please check your TOGETHER_API_KEY.".toList) := by
  decide

/-- C4 amended: no dispatch failure propagates out of the task orchestrators,
auth errors included: for every dispatcher error `e`, `summarize` returns the
debug string `"[DEBUG] Error: " + str(e)` and `generate_flashcards` returns
the empty list. -/
theorem dispatch_errors_never_propagate (e : ApiError) (text : List Char) :
    summarize (fun _ => .error e) text = "[DEBUG] Error: ".toList ++ errMessage e ∧
    generate_flashcards (fun _ => .error e) text none = [] := by
  constructor
  · rw [summarize, summarizeBody]
    by_cases h1 : (chunk_text text 2000).length = 1
    · simp [h1]
    · simp only [if_neg h1]
      cases hc : chunk_text text 2000 with
      | nil => simp [dispatchChunks]
      | cons c rest => simp [dispatchChunks]
  · rw [generate_flashcards, generate_flashcardsBody]
    cases hc : chunk_text text 2048 with
    | nil =>
      by_cases ht : text = []
      · simp [fcChunkLoop, ht]
      · simp [fcChunkLoop, ht]
    | cons c rest => simp [fcChunkLoop, default_num_cards]

/-!
Section: Chunker: content preservation (C5)

`chunk_text` only splits on `"\n\n"` and `". "`, strips whitespace, rejoins
with `"\n\n"` or `". "` and appends `'.'`; so the characters that are neither
whitespace nor `'.'` — called *content* below — are preserved in order.  The
`'.'` characters themselves are not: the sentence fallback can drop or invent
them, which is the C5 counterexample.
-/

/-- The non-whitespace, non-period characters of a string, in order. -/
def contentOf (s : List Char) : List Char :=
  s.filter (fun c => !c.isWhitespace && !(c == '.'))

theorem contentOf_append (a b : List Char) :
    contentOf (a ++ b) = contentOf a ++ contentOf b := by
  rw [contentOf, contentOf, contentOf, List.filter_append]

theorem contentOf_flatten : ∀ L : List (List Char), contentOf L.flatten = (L.map contentOf).flatten
  | [] => rfl
  | x :: rest => by
    rw [List.flatten_cons, contentOf_append, contentOf_flatten rest, List.map_cons, List.flatten_cons]

theorem contentOf_joinSep (sep : List Char) (hsep : contentOf sep = []) :
    ∀ xs : List (List Char), contentOf (joinSep sep xs) = (xs.map contentOf).flatten
  | [] => rfl
  | [x] => by simp [joinSep]
  | x :: y :: rest => by
    rw [joinSep, contentOf_append, contentOf_append, hsep,
        contentOf_joinSep sep hsep (y :: rest)]
    simp

theorem splitOn2_ne_nil (a b : Char) : ∀ s, splitOn2 a b s ≠ []
  | [] => by simp [splitOn2]
  | [c] => by simp [splitOn2]
  | c :: d :: rest => by
    rw [splitOn2]
    split_ifs
    · simp
    · cases h : splitOn2 a b (d :: rest) with
      | nil => simp [consHead]
      | cons g gs => simp [consHead]

theorem joinSep_splitOn2 (a b : Char) : ∀ s, joinSep [a, b] (splitOn2 a b s) = s
  | [] => rfl
  | [c] => rfl
  | c :: d :: rest => by
    have ih := joinSep_splitOn2 a b (d :: rest)
    have ih2 := joinSep_splitOn2 a b rest
    rw [splitOn2]
    split_ifs with h
    · obtain ⟨h1, h2⟩ := h
      subst h1
      subst h2
      cases hs : splitOn2 c d rest with
      | nil => exact absurd hs (splitOn2_ne_nil c d rest)
      | cons g gs =>
        rw [hs] at ih2
        rw [joinSep, ih2]
        rfl
    · cases hs : splitOn2 a b (d :: rest) with
      | nil => exact absurd hs (splitOn2_ne_nil a b (d :: rest))
      | cons g gs =>
        rw [hs] at ih
        rw [consHead]
        cases gs with
        | nil =>
          have ihg : g = d :: rest := ih
          rw [show joinSep [a, b] [c :: g] = c :: g from rfl, ihg]
        | cons g2 gs2 =>
          have ihg : (g ++ [a, b]) ++ joinSep [a, b] (g2 :: gs2) = d :: rest := ih
          rw [show joinSep [a, b] ((c :: g) :: g2 :: gs2) =
                ((c :: g) ++ [a, b]) ++ joinSep [a, b] (g2 :: gs2) from rfl,
              List.cons_append, List.cons_append, ihg]

theorem filter_dropWhile (p q : Char → Bool) (h : ∀ c, q c = true → p c = false) :
    ∀ s : List Char, (s.dropWhile q).filter p = s.filter p
  | [] => rfl
  | c :: rest => by
    rw [List.dropWhile_cons]
    cases hq : q c with
    | true =>
      simp only [hq, if_true]
      rw [filter_dropWhile p q h rest, List.filter_cons, h c hq]
      simp
    | false => simp [hq]

theorem contentOf_stripL (s : List Char) : contentOf (stripL s) = contentOf s := by
  have hws : ∀ c : Char, c.isWhitespace = true →
      (fun c => !c.isWhitespace && !(c == '.')) c = false := by
    intro c h
    simp [h]
  rw [stripL, contentOf, contentOf, List.filter_reverse,
      filter_dropWhile _ _ hws, List.filter_reverse, filter_dropWhile _ _ hws,
      List.reverse_reverse]

theorem contentOf_dot : contentOf ['.'] = [] := by decide
theorem contentOf_dotsp : contentOf ['.', ' '] = [] := by decide
theorem contentOf_nn : contentOf ['\n', '\n'] = [] := by decide

/-- The content of a chunker state: everything emitted plus everything in the
chunk under construction. -/
def stContent (st : ChunkState) : List Char :=
  (st.chunks.map contentOf).flatten ++ (st.current.map contentOf).flatten

theorem stContent_procSentence (max_length : Nat) (st : ChunkState) (s : List Char) :
    stContent (procSentence max_length st s) = stContent st ++ contentOf s := by
  rw [procSentence]
  split_ifs with h1 h2
  · simp [stContent, List.map_append, List.flatten_append]
  · simp only [stContent, List.map_append, List.flatten_append, List.map_cons, List.flatten_cons,
      List.map_nil, List.flatten_nil, List.append_nil]
    rw [contentOf_append, contentOf_joinSep ['.', ' '] contentOf_dotsp, contentOf_dot]
    simp
  · push_neg at h2
    simp [stContent, h2]

theorem stContent_foldl_sentences (max_length : Nat) :
    ∀ (l : List (List Char)) (st : ChunkState),
    stContent (l.foldl (procSentence max_length) st) =
      stContent st ++ (l.map contentOf).flatten
  | [], st => by simp
  | s :: rest, st => by
    rw [List.foldl_cons, stContent_foldl_sentences max_length rest _,
        stContent_procSentence]
    simp

theorem stContent_procParagraph (max_length : Nat) (st : ChunkState) (p : List Char) :
    stContent (procParagraph max_length st p) = stContent st ++ contentOf p := by
  rw [procParagraph]
  split_ifs with h1 h2 h3 h4
  · rw [← contentOf_stripL p, h1]
    simp [contentOf]
  · rw [stContent_foldl_sentences]
    have hs : (List.map contentOf (splitOn2 '.' ' ' (stripL p))).flatten =
        contentOf (stripL p) := by
      rw [← contentOf_joinSep ['.', ' '] contentOf_dotsp, joinSep_splitOn2]
    rw [hs, contentOf_stripL]
  · simp only [stContent, List.map_append, List.flatten_append, List.map_cons, List.flatten_cons,
      List.map_nil, List.flatten_nil, List.append_nil]
    rw [contentOf_stripL]
    simp
  · simp only [stContent, List.map_append, List.flatten_append, List.map_cons, List.flatten_cons,
      List.map_nil, List.flatten_nil, List.append_nil]
    rw [contentOf_joinSep ['\n', '\n'] contentOf_nn, contentOf_stripL]
  · push_neg at h4
    simp [stContent, h4, contentOf_stripL]

theorem stContent_foldl_paragraphs (max_length : Nat) :
    ∀ (l : List (List Char)) (st : ChunkState),
    stContent (l.foldl (procParagraph max_length) st) =
      stContent st ++ (l.map contentOf).flatten
  | [], st => by simp
  | p :: rest, st => by
    rw [List.foldl_cons, stContent_foldl_paragraphs max_length rest _,
        stContent_procParagraph]
    simp

/-- C5 counterexample: chunking `"aaaaaa. b. c"` with `max_length = 8` yields
`["aaaaaa.", "b\n\nc"]` — the `". "` between the sentences `"b"` and `"c"`
became the chunk-internal separator `"\n\n"`, so the period after `"b"` is
lost: even ignoring all whitespace, the concatenation of the chunks does not
reconstruct the input. -/
theorem chunk_concat_counterexample :
    ((chunk_text ("aaaaaa. b. c".toList) 8).flatten).filter (fun c => !c.isWhitespace) ≠
      ("aaaaaa. b. c".toList).filter (fun c => !c.isWhitespace) := by decide

/-- C5 amended: for every input text and every `max_length`, the concatenation
of the chunks reconstructs the input up to whitespace **and `'.'`
characters**: the non-whitespace, non-period characters are preserved exactly
and in order (the sentence-splitting fallback can drop or insert `'.'`
separators at sentence boundaries, and whitespace is normalized). -/
theorem chunk_text_content (text : List Char) (max_length : Nat) :
    contentOf (chunk_text text max_length).flatten = contentOf text := by
  rw [chunk_text]
  have hpar : (List.map contentOf (splitOn2 '\n' '\n' text)).flatten = contentOf text := by
    rw [← contentOf_joinSep ['\n', '\n'] contentOf_nn, joinSep_splitOn2]
  have hst := stContent_foldl_paragraphs max_length (splitOn2 '\n' '\n' text) ⟨[], [], 0⟩
  rw [hpar] at hst
  split_ifs with h
  · simp only [stContent, List.map_nil, List.flatten_nil, List.append_nil,
      List.nil_append] at hst
    rw [List.flatten_append, List.flatten_cons, List.flatten_nil, List.append_nil,
        contentOf_append, contentOf_flatten, contentOf_joinSep ['\n', '\n'] contentOf_nn]
    exact hst
  · push_neg at h
    rw [List.append_nil, contentOf_flatten]
    simp only [stContent, h, List.map_nil, List.flatten_nil, List.append_nil,
      List.nil_append] at hst
    exact hst

/-!
Section: Chunker: chunk length bound (C6)

The accumulation test `current_length + len(unit) + 2 <= max_length` counts
two separator characters per unit, while the emitted joins spend at most two
per gap plus one trailing `'.'`, so ordinary chunks stay within
`max_length + 1` — one more than the claim's bound, reachable because the
trailing `'.'` is not counted.  A unit that overflows an emission is restarted
with `current_length = len(unit)` and no slack, so the only chunks beyond
`max_length + 1` consist of a single oversized sentence.
-/

/-- Predicate: `s` is one of the sentences produced by the sentence-splitting fallback:
a member of `paragraph.split('. ')` for some paragraph of `text` whose
stripped form exceeds `max_length`. -/
def SentOf (text : List Char) (max_length : Nat) (s : List Char) : Prop :=
  ∃ p ∈ splitOn2 '\n' '\n' text,
    (stripL p).length > max_length ∧ s ∈ splitOn2 '.' ' ' (stripL p)

/-- A chunk respects the (amended) length discipline: it is at most
`max_length + 1` characters long, or it is a single oversized sentence of the
input, emitted alone (either bare or with the appended `'.'`). -/
def okChunk (text : List Char) (max_length : Nat) (c : List Char) : Prop :=
  c.length ≤ max_length + 1 ∨
    ∃ s, (c = s ∨ c = s ++ ['.']) ∧ s.length > max_length ∧ SentOf text max_length s

/-- Total character count of a list of units. -/
def sumLen (l : List (List Char)) : Nat := (l.map List.length).sum

theorem sumLen_append (l : List (List Char)) (x : List Char) :
    sumLen (l ++ [x]) = sumLen l + x.length := by
  simp [sumLen]

theorem joinSep_length (sep : List Char) : ∀ l : List (List Char), l ≠ [] →
    (joinSep sep l).length = sumLen l + sep.length * (l.length - 1)
  | [], h => absurd rfl h
  | [x], _ => by simp [joinSep, sumLen]
  | x :: y :: rest, _ => by
    have ih := joinSep_length sep (y :: rest) (by simp)
    rw [joinSep, List.append_assoc, List.length_append, List.length_append, ih]
    simp only [sumLen, List.map_cons, List.sum_cons, List.length_cons,
      Nat.add_sub_cancel, Nat.succ_sub_one]
    rw [Nat.mul_succ]
    ring

/-- The loop invariant of `chunk_text`: every emitted chunk satisfies
`okChunk`, and the chunk under construction either is empty with
`current_length = 0` (only at the start), or its units plus two characters per
gap fit in `current_length`, which in turn is at most `max_length` unless the
chunk is a single freshly restarted oversized sentence. -/
def InvSt (text : List Char) (max_length : Nat) (st : ChunkState) : Prop :=
  (∀ c ∈ st.chunks, okChunk text max_length c) ∧
  ((st.current = [] ∧ st.clen = 0) ∨
    (st.current ≠ [] ∧ sumLen st.current + 2 * (st.current.length - 1) ≤ st.clen ∧
      (st.clen ≤ max_length ∨
        ∃ s, st.current = [s] ∧ st.clen = s.length ∧ SentOf text max_length s)))

theorem emit_nn_ok (text : List Char) (max_length : Nat) (st : ChunkState)
    (hcur : st.current ≠ [])
    (hsum : sumLen st.current + 2 * (st.current.length - 1) ≤ st.clen)
    (hdisj : st.clen ≤ max_length ∨
      ∃ s, st.current = [s] ∧ st.clen = s.length ∧ SentOf text max_length s) :
    okChunk text max_length (joinSep ['\n', '\n'] st.current) := by
  rcases hdisj with hle | ⟨s, hcr, hclen, hsent⟩
  · left
    rw [joinSep_length _ _ hcur]
    simp only [List.length_cons, List.length_nil]
    omega
  · by_cases hbig : s.length ≤ max_length + 1
    · left
      rw [hcr, show joinSep ['\n', '\n'] [s] = s from rfl]
      exact hbig
    · right
      refine ⟨s, Or.inl ?_, by omega, hsent⟩
      rw [hcr, show joinSep ['\n', '\n'] [s] = s from rfl]

theorem emit_dot_ok (text : List Char) (max_length : Nat) (st : ChunkState)
    (hcur : st.current ≠ [])
    (hsum : sumLen st.current + 2 * (st.current.length - 1) ≤ st.clen)
    (hdisj : st.clen ≤ max_length ∨
      ∃ s, st.current = [s] ∧ st.clen = s.length ∧ SentOf text max_length s) :
    okChunk text max_length (joinSep ['.', ' '] st.current ++ ['.']) := by
  rcases hdisj with hle | ⟨s, hcr, hclen, hsent⟩
  · left
    rw [List.length_append, joinSep_length _ _ hcur]
    simp only [List.length_cons, List.length_nil]
    omega
  · by_cases hbig : s.length + 1 ≤ max_length + 1
    · left
      rw [hcr, show joinSep ['.', ' '] [s] = s from rfl, List.length_append]
      simpa using hbig
    · right
      refine ⟨s, Or.inr ?_, by omega, hsent⟩
      rw [hcr, show joinSep ['.', ' '] [s] = s from rfl]

theorem inv_procSentence (text : List Char) (max_length : Nat) (st : ChunkState)
    (s : List Char) (hst : InvSt text max_length st) (hs : SentOf text max_length s) :
    InvSt text max_length (procSentence max_length st s) := by
  obtain ⟨hchunks, hcur⟩ := hst
  rw [procSentence]
  split_ifs with h1 h2
  · refine ⟨hchunks, Or.inr ⟨by simp, ?_, Or.inl h1⟩⟩
    rcases hcur with ⟨hc0, hl0⟩ | ⟨hne, hsum, _⟩
    · rw [hc0, hl0]
      simp [sumLen]
    · have hk : 1 ≤ st.current.length := List.length_pos.mpr hne
      rw [sumLen_append, List.length_append]
      simp only [List.length_cons, List.length_nil]
      omega
  · refine ⟨?_, Or.inr ⟨by simp, by simp [sumLen], Or.inr ⟨s, rfl, rfl, hs⟩⟩⟩
    intro c hc
    rcases List.mem_append.mp hc with hc | hc
    · exact hchunks c hc
    · rw [List.mem_singleton] at hc
      subst hc
      rcases hcur with ⟨hc0, _⟩ | ⟨hne, hsum, hdisj⟩
      · exact absurd hc0 h2
      · exact emit_dot_ok text max_length st hne hsum hdisj
  · refine ⟨?_, Or.inr ⟨by simp, by simp [sumLen], Or.inr ⟨s, rfl, rfl, hs⟩⟩⟩
    intro c hc
    rw [List.append_nil] at hc
    exact hchunks c hc

theorem inv_foldl_sentences (text : List Char) (max_length : Nat) :
    ∀ (l : List (List Char)) (st : ChunkState), InvSt text max_length st →
    (∀ s ∈ l, SentOf text max_length s) →
    InvSt text max_length (l.foldl (procSentence max_length) st)
  | [], st, hst, _ => hst
  | s :: rest, st, hst, hall => by
    rw [List.foldl_cons]
    exact inv_foldl_sentences text max_length rest _
      (inv_procSentence text max_length st s hst (hall s (by simp)))
      (fun u hu => hall u (by simp [hu]))

theorem inv_procParagraph (text : List Char) (max_length : Nat) (st : ChunkState)
    (p : List Char) (hst : InvSt text max_length st)
    (hp : p ∈ splitOn2 '\n' '\n' text) :
    InvSt text max_length (procParagraph max_length st p) := by
  rw [procParagraph]
  split_ifs with h1 h2 h3 h4
  · exact hst
  · exact inv_foldl_sentences text max_length _ st hst (fun s hs => ⟨p, hp, h2, hs⟩)
  · obtain ⟨hchunks, hcur⟩ := hst
    refine ⟨hchunks, Or.inr ⟨by simp, ?_, Or.inl h3⟩⟩
    rcases hcur with ⟨hc0, hl0⟩ | ⟨hne, hsum, _⟩
    · rw [hc0, hl0]
      simp [sumLen]
    · have hk : 1 ≤ st.current.length := List.length_pos.mpr hne
      rw [sumLen_append, List.length_append]
      simp only [List.length_cons, List.length_nil]
      omega
  · obtain ⟨hchunks, hcur⟩ := hst
    push_neg at h2
    refine ⟨?_, Or.inr ⟨by simp, by simp [sumLen], Or.inl h2⟩⟩
    intro c hc
    rcases List.mem_append.mp hc with hc | hc
    · exact hchunks c hc
    · rw [List.mem_singleton] at hc
      subst hc
      rcases hcur with ⟨hc0, _⟩ | ⟨hne, hsum, hdisj⟩
      · exact absurd hc0 h4
      · exact emit_nn_ok text max_length st hne hsum hdisj
  · obtain ⟨hchunks, hcur⟩ := hst
    push_neg at h2
    refine ⟨?_, Or.inr ⟨by simp, by simp [sumLen], Or.inl h2⟩⟩
    intro c hc
    rw [List.append_nil] at hc
    exact hchunks c hc

theorem inv_foldl_paragraphs (text : List Char) (max_length : Nat) :
    ∀ (l : List (List Char)) (st : ChunkState), InvSt text max_length st →
    (∀ p ∈ l, p ∈ splitOn2 '\n' '\n' text) →
    InvSt text max_length (l.foldl (procParagraph max_length) st)
  | [], st, hst, _ => hst
  | p :: rest, st, hst, hall => by
    rw [List.foldl_cons]
    exact inv_foldl_paragraphs text max_length rest _
      (inv_procParagraph text max_length st p hst (hall p (by simp)))
      (fun u hu => hall u (by simp [hu]))

/-- C6 amended: every chunk is at most `max_length + 1` characters long,
except a chunk consisting of a single indivisible sentence `s` with
`len(s) > max_length`, emitted as `s` itself or as `s + "."`. -/
theorem chunk_length_bound (text : List Char) (max_length : Nat) (c : List Char)
    (hc : c ∈ chunk_text text max_length) : okChunk text max_length c := by
  have hInv : InvSt text max_length
      ((splitOn2 '\n' '\n' text).foldl (procParagraph max_length) ⟨[], [], 0⟩) :=
    inv_foldl_paragraphs text max_length _ _
      ⟨fun c hc => absurd hc (List.not_mem_nil c), Or.inl ⟨rfl, rfl⟩⟩
      (fun p hp => hp)
  rw [chunk_text] at hc
  obtain ⟨hchunks, hcur⟩ := hInv
  rcases List.mem_append.mp hc with hc | hc
  · exact hchunks c hc
  · split_ifs at hc with h
    · rw [List.mem_singleton] at hc
      subst hc
      rcases hcur with ⟨hc0, _⟩ | ⟨hne, hsum, hdisj⟩
      · exact absurd hc0 h
      · exact emit_nn_ok text max_length _ hne hsum hdisj
    · exact absurd hc (List.not_mem_nil c)

/-- Witness for C6 amended: the single chunk of a short input. -/
theorem chunk_length_bound_witness : okChunk ("hi".toList) 10 ("hi".toList) :=
  chunk_length_bound ("hi".toList) 10 ("hi".toList) (by decide)

/-- C6 as literally claimed: every chunk has length at most `max_length`,
except a chunk that is a single sentence (bare or with the appended `'.'`)
itself longer than `max_length`. -/
def claimC6 (text : List Char) (max_length : Nat) : Prop :=
  ∀ c ∈ chunk_text text max_length, c.length ≤ max_length ∨
    ∃ p ∈ splitOn2 '\n' '\n' text, ∃ s ∈ splitOn2 '.' ' ' (stripL p),
      s.length > max_length ∧ (c = s ∨ c = s ++ ['.'])

/-- C6 counterexample: chunking `"aaaa. bb"` with `max_length = 4` emits the
chunk `"aaaa."` of length 5 > 4, yet the sentence `"aaaa"` it was built from
has length 4, which does not exceed `max_length` — so the claimed exception
does not cover it (`current_length` counts the sentence as 4, and the
appended `'.'` pushes the chunk one past the limit). -/
theorem chunk_length_counterexample : ¬ claimC6 ("aaaa. bb".toList) 4 := by
  unfold claimC6
  decide
